import Mathlib

/-!
# Verification of the Peebify Launcher asset-synchronization engine

Shallow embedding of the game-asset synchronization core of the launcher
(`src/backend/core.js` and `src/backend/window-manager.js`) and proofs about
its behaviour.

Conventions of the embedding:
* JS numbers that only ever hold byte counts, timestamps or indices are
  modelled as `Nat`/`Int`; quantities that flow through divisions
  (speeds, percentages, ETA) are modelled as `ℚ`.
* Asynchronous effectful code is modelled as pure state-passing functions;
  the network, the file system and the hashing routine are inputs
  (oracles) to these functions.
* Fallible code returns `Except`/`Option`.
-/

namespace Peebify

/-! ## Constants (CONSTANTS in core.js) -/

def MAX_RETRIES : Nat := 10
def MAX_REPAIR_RETRIES : Nat := 10
def RETRY_DELAY_BASE : Nat := 1000
def MAX_CONCURRENT_DOWNLOADS : Nat := 8
def MAX_CONCURRENT_REPAIRS : Nat := 8
def STREAM_CHUNK_SIZE : Nat := 1024 * 1024
def VALIDATION_BATCH_SIZE : Nat := 100

/-- `CONSTANTS.SPEED_SMOOTHING_FACTOR || 0.7` — the constant is absent from
`CONSTANTS`, so the fallback `0.7` is always used. -/
def SPEED_SMOOTHING_FACTOR : ℚ := 7/10

/-- STATUS.DOWNLOAD.CANCELLED -/
def STATUS_DOWNLOAD_CANCELLED : String := "Cancelled"

/-- STATUS.DOWNLOAD.ERROR -/
def STATUS_DOWNLOAD_ERROR : String := "Error"

/-! ## CoreUtils.withRetry (core.js)

```js
static async withRetry(operation, maxRetries = CONSTANTS.MAX_RETRIES,
                       baseDelay = CONSTANTS.RETRY_DELAY_BASE) {
    for (let attempt = 1; attempt <= maxRetries; attempt++) {
        try {
            return await operation();
        } catch (error) {
            if (attempt === maxRetries) throw error;
            await new Promise(resolve => setTimeout(resolve, baseDelay * attempt));
        }
    }
}
```

The operation is modelled as a function from the 1-based attempt number to
the outcome of that attempt.  `withRetry` returns
`(finalOutcome, delaysSlept, attemptsMade)`; the `Option` layer records that
the JS loop can fall through and return `undefined` when `maxRetries = 0`.
-/

/-- `true` iff the outcome is an error (`Except` has no such projection in
this toolchain). -/
def isErr : Except E A → Bool
  | .error _ => true
  | .ok _ => false

@[simp] theorem isErr_error (e : E) : isErr (A := A) (.error e) = true := rfl

@[simp] theorem isErr_ok (a : A) : isErr (E := E) (.ok a) = false := rfl

def withRetryGo (op : Nat → Except E A) (maxRetries baseDelay : Nat) :
    Nat → Nat → Option (Except E A) × List Nat × Nat
  | _, 0 => (none, [], 0)
  | attempt, fuel + 1 =>
    match op attempt with
    | .ok a => (some (.ok a), [], 1)
    | .error e =>
      if attempt = maxRetries then (some (.error e), [], 1)
      else
        let rest := withRetryGo op maxRetries baseDelay (attempt + 1) fuel
        (rest.1, baseDelay * attempt :: rest.2.1, rest.2.2 + 1)

def withRetry (op : Nat → Except E A) (maxRetries : Nat) (baseDelay : Nat) :
    Option (Except E A) × List Nat × Nat :=
  withRetryGo op maxRetries baseDelay 1 maxRetries

/-- If every attempt from `s` up to `m` fails, the loop performs all of
them, sleeps `baseDelay * k` after each non-final failed attempt `k`, and
rethrows the error of attempt `m`. -/
theorem withRetryGo_allFail (op : Nat → Except E A) (m d : Nat) :
    ∀ fuel s, 0 < s → s + fuel = m + 1 → s ≤ m →
    (∀ k, s ≤ k → k ≤ m → isErr (op k) = true) →
    withRetryGo op m d s fuel =
      (some (op m), (List.range' s (m - s)).map (fun k => d * k), m + 1 - s) := by
  intro fuel
  induction fuel with
  | zero =>
    intro s _ hsum hsm _
    omega
  | succ f ih =>
    intro s hs hsum hsm hall
    have hserr : isErr (op s) = true := hall s le_rfl hsm
    obtain ⟨e, he⟩ : ∃ e, op s = .error e := by
      cases hop : op s with
      | ok a => rw [hop] at hserr; simp at hserr
      | error e => exact ⟨e, rfl⟩
    rcases eq_or_lt_of_le hsm with heq | hlt
    · subst heq
      simp only [withRetryGo, he, if_pos rfl]
      have h0 : s - s = 0 := by omega
      have h1 : s + 1 - s = 1 := by omega
      simp [h0, h1, List.range', he]
    · have hne : s ≠ m := by omega
      simp only [withRetryGo, he, if_neg hne]
      have hrest := ih (s + 1) (by omega) (by omega) (by omega)
        (fun k hk1 hk2 => hall k (by omega) hk2)
      have hrange : List.range' s (m - s) = s :: List.range' (s + 1) (m - (s + 1)) := by
        have h1 : m - s = (m - (s + 1)) + 1 := by omega
        rw [h1, List.range'_succ]
      simp only [hrest, hrange, List.map_cons, Prod.mk.injEq]
      exact ⟨trivial, trivial, by omega⟩

/-- If attempts `s, …, j-1` fail and attempt `j ≤ m` succeeds with `a`, the
loop returns that success after `j - s + 1` attempts, having slept
`baseDelay * k` after each failed attempt `k < j`. -/
theorem withRetryGo_firstSuccess (op : Nat → Except E A) (m d : Nat) (j : Nat) (a : A)
    (hj : op j = .ok a) :
    ∀ fuel s, 0 < s → s + fuel = m + 1 → s ≤ j → j ≤ m →
    (∀ k, s ≤ k → k < j → isErr (op k) = true) →
    withRetryGo op m d s fuel =
      (some (.ok a), (List.range' s (j - s)).map (fun k => d * k), j + 1 - s) := by
  intro fuel
  induction fuel with
  | zero =>
    intro s _ hsum hsj hjm _
    omega
  | succ f ih =>
    intro s hs hsum hsj hjm hfail
    rcases eq_or_lt_of_le hsj with heq | hlt
    · subst heq
      simp only [withRetryGo, hj]
      have h0 : s - s = 0 := by omega
      have h1 : s + 1 - s = 1 := by omega
      simp [h0, h1, List.range']
    · have hserr : isErr (op s) = true := hfail s le_rfl hlt
      obtain ⟨e, he⟩ : ∃ e, op s = .error e := by
        cases hop : op s with
        | ok b => rw [hop] at hserr; simp at hserr
        | error e => exact ⟨e, rfl⟩
      have hne : s ≠ m := by omega
      simp only [withRetryGo, he, if_neg hne]
      have hrest := ih (s + 1) (by omega) (by omega) (by omega) hjm
        (fun k hk1 hk2 => hfail k (by omega) hk2)
      have hrange : List.range' s (j - s) = s :: List.range' (s + 1) (j - (s + 1)) := by
        have h1 : j - s = (j - (s + 1)) + 1 := by omega
        rw [h1, List.range'_succ]
      simp only [hrest, hrange, List.map_cons, Prod.mk.injEq]
      exact ⟨trivial, trivial, by omega⟩

/-- C2: per-file retry policy of `CoreUtils.withRetry`.  With retry cap
`m ≥ 1` (the default cap `MAX_RETRIES` is 10): an operation failing on every
attempt is attempted exactly `m` times, the delay slept after failed attempt
`k` is `k * baseDelay` for `k = 1, …, m-1`, and the final error is rethrown;
an operation that fails on the first `j - 1 < m` attempts and succeeds on
attempt `j` makes the whole call return that success after `j` attempts. -/
theorem C2_withRetry_policy (op : Nat → Except E A) (m d : Nat) (hm : 1 ≤ m) :
    MAX_RETRIES = 10
  ∧ ((∀ k, 1 ≤ k → k ≤ m → isErr (op k) = true) →
      withRetry op m d =
        (some (op m), (List.range' 1 (m - 1)).map (fun k => d * k), m))
  ∧ (∀ j a, 1 ≤ j → j ≤ m → op j = .ok a →
      (∀ k, 1 ≤ k → k < j → isErr (op k) = true) →
      withRetry op m d =
        (some (.ok a), (List.range' 1 (j - 1)).map (fun k => d * k), j)) := by
  refine ⟨rfl, ?_, ?_⟩
  · intro hall
    have h := withRetryGo_allFail op m d m 1 (by omega) (by omega) hm hall
    simpa [withRetry] using h
  · intro j a hj1 hjm hok hfail
    have h := withRetryGo_firstSuccess op m d j a hok m 1 (by omega) (by omega) hj1 hjm hfail
    simpa [withRetry] using h

def c2AlwaysFails : Nat → Except Nat Nat := fun _ => .error 7

def c2SucceedsThird : Nat → Except Nat Nat := fun k => if k < 3 then .error k else .ok 42

/-- Concrete instance of C2 at the default cap 10 and base delay 1000. -/
theorem C2_witness :
    withRetry c2AlwaysFails 10 1000 =
      (some (.error 7), [1000, 2000, 3000, 4000, 5000, 6000, 7000, 8000, 9000], 10)
  ∧ withRetry c2SucceedsThird 10 1000 = (some (.ok 42), [1000, 2000], 3) := by
  constructor
  · have h := (C2_withRetry_policy c2AlwaysFails 10 1000 (by decide)).2.1
      (fun k _ _ => rfl)
    exact h.trans (by rfl)
  · have h := (C2_withRetry_policy c2SucceedsThird 10 1000 (by decide)).2.2 3 42
      (by decide) (by decide) rfl
      (by intro k hk1 hk2; simp [c2SucceedsThird, hk2])
    exact h.trans (by rfl)

/-! ## FileValidator (window-manager.js)

`quickValidate(filePath, expectedSize)` stats the file and compares sizes;
an `ENOENT` stat failure becomes `false`, every other stat failure is
rethrown.

`deepValidate(filePath, expectedSize, expectedMD5, onProgress)` stats the
file, returns `false` on a size mismatch, then consults the hash cache
under the template-string key built from the path, the mtime and the size;
on a miss it streams the content through `calculateMD5WithProgress` and
records the digest.  The verdict compares digests after `toLowerCase()` on
both sides.  The *entire* body sits in a try/catch whose catch-all returns
`false`.

Files are modelled up to what the validator observes of them: a stat
record carrying `size`, `mtime.getTime()` and the hex digest that
streaming the content through `calculateMD5WithProgress` would produce.
The file system is an oracle `String → Except IOCode Stats` standing for
`fs.stat`.  `contentBytesRead` counts the bytes of file content streamed
from disk by `calculateMD5WithProgress` (0 when the hash cache answers, in
which case `onProgress` is fed the full size without any disk read). -/

inductive IOCode where
  | enoent
  | eacces
  | otherCode (code : String)
deriving DecidableEq, Repr

structure Stats where
  size : Nat
  mtime : Nat
  contentMD5 : String
deriving DecidableEq, Repr

def quickValidate (stat : String → Except IOCode Stats) (filePath : String)
    (expectedSize : Nat) : Except IOCode Bool :=
  match stat filePath with
  | .ok stats => .ok (decide (stats.size = expectedSize))
  | .error .enoent => .ok false
  | .error e => .error e

/-- `toLowerCase()` of JS, applied to the hex digest strings the validator
compares; written over the character list so that it evaluates. -/
def jsToLower (s : String) : String := ⟨s.data.map Char.toLower⟩

/-- The template-string cache key of `deepValidate`: the file path, the
mtime and the size joined by underscores. -/
def cacheKey (filePath : String) (mtime size : Nat) : String :=
  filePath ++ "_" ++ toString mtime ++ "_" ++ toString size

/-- Lookup in the validation cache (`this.validationCache`, a JS `Map`),
modelled as an association list. -/
def cacheFind (key : String) : List (String × String) → Option String
  | [] => none
  | (k, v) :: rest => if k = key then some v else cacheFind key rest

structure DeepOutcome where
  valid : Bool
  cache : List (String × String)
  contentBytesRead : Nat
deriving DecidableEq, Repr

/-- `FileValidator.deepValidate`.  The catch-all makes the result always
`.ok` in this implementation; the `Except` layer records that the source
function *could* reject, which the catch-all prevents.  Read failures
inside `calculateMD5WithProgress` land in the same catch-all and are
subsumed by the `.error` branch of the stat oracle. -/
def deepValidate (stat : String → Except IOCode Stats) (cache : List (String × String))
    (filePath : String) (expectedSize : Nat) (expectedMD5 : String) :
    Except IOCode DeepOutcome :=
  match stat filePath with
  | .error _ => .ok ⟨false, cache, 0⟩
  | .ok stats =>
    if stats.size ≠ expectedSize then .ok ⟨false, cache, 0⟩
    else
      match cacheFind (cacheKey filePath stats.mtime stats.size) cache with
      | some cachedMD5 =>
        .ok ⟨decide (jsToLower cachedMD5 = jsToLower expectedMD5), cache, 0⟩
      | none =>
        .ok ⟨decide (jsToLower stats.contentMD5 = jsToLower expectedMD5),
             (cacheKey filePath stats.mtime stats.size, stats.contentMD5) :: cache,
             stats.size⟩

/-! Injectivity of the cache key in its mtime/size components, via the
decimal representation used by the template string. -/

theorem toDigitsCore_eq_digits (f : Nat) :
    ∀ (n : Nat) (l : List Char), n < f → 0 < n →
    Nat.toDigitsCore 10 f n l = ((Nat.digits 10 n).map Nat.digitChar).reverse ++ l := by
  induction f with
  | zero => intro n l hf hn; omega
  | succ f ih =>
    intro n l hf hn
    have hdig : Nat.digits 10 n = n % 10 :: Nat.digits 10 (n / 10) :=
      Nat.digits_def' (by norm_num) hn
    simp only [Nat.toDigitsCore]
    by_cases h10 : n / 10 = 0
    · rw [if_pos h10, hdig, h10]
      simp
    · rw [if_neg h10]
      have hlt : n / 10 < f := by
        have := Nat.div_lt_self hn (by norm_num : 1 < 10)
        omega
      rw [ih (n / 10) _ hlt (Nat.pos_of_ne_zero h10), hdig]
      simp [List.append_assoc]

theorem repr_data_eq_digits (n : Nat) (hn : 0 < n) :
    (Nat.repr n).data = ((Nat.digits 10 n).map Nat.digitChar).reverse := by
  show (Nat.toDigitsCore 10 (n + 1) n []).asString.data = _
  rw [toDigitsCore_eq_digits (n + 1) n [] (by omega) hn]
  simp [List.asString]

theorem digitChar_inj_lt :
    ∀ d1, d1 < 10 → ∀ d2, d2 < 10 → Nat.digitChar d1 = Nat.digitChar d2 → d1 = d2 := by
  decide

theorem map_digitChar_inj : ∀ (l1 l2 : List Nat),
    (∀ d ∈ l1, d < 10) → (∀ d ∈ l2, d < 10) →
    l1.map Nat.digitChar = l2.map Nat.digitChar → l1 = l2
  | [], [], _, _, _ => rfl
  | [], _ :: _, _, _, h => by simp at h
  | _ :: _, [], _, _, h => by simp at h
  | a :: l1, b :: l2, h1, h2, h => by
    simp only [List.map_cons, List.cons.injEq] at h
    have hab := digitChar_inj_lt a (h1 a (by simp)) b (h2 b (by simp)) h.1
    have hl := map_digitChar_inj l1 l2
      (fun d hd => h1 d (by simp [hd])) (fun d hd => h2 d (by simp [hd])) h.2
    rw [hab, hl]

theorem natRepr_data_inj {m n : Nat} (h : (Nat.repr m).data = (Nat.repr n).data) :
    m = n := by
  have key : ∀ a b : Nat, 0 < a → 0 < b →
      (Nat.repr a).data = (Nat.repr b).data → a = b := by
    intro a b ha hb hab
    rw [repr_data_eq_digits a ha, repr_data_eq_digits b hb] at hab
    have h2 := List.reverse_injective hab
    have hd := map_digitChar_inj _ _
      (fun d hd => Nat.digits_lt_base (by norm_num) hd)
      (fun d hd => Nat.digits_lt_base (by norm_num) hd) h2
    calc a = Nat.ofDigits 10 (Nat.digits 10 a) := (Nat.ofDigits_digits 10 a).symm
      _ = Nat.ofDigits 10 (Nat.digits 10 b) := by rw [hd]
      _ = b := Nat.ofDigits_digits 10 b
  have zeroCase : ∀ b : Nat, (Nat.repr 0).data = (Nat.repr b).data → b = 0 := by
    intro b hb
    by_contra hb0
    have hpos : 0 < b := Nat.pos_of_ne_zero hb0
    rw [repr_data_eq_digits b hpos] at hb
    have h0 : (Nat.repr 0).data = ['0'] := by decide
    rw [h0] at hb
    have hmap0 : List.map Nat.digitChar [0] = ['0'] := by decide
    have hb2 : List.map Nat.digitChar (Nat.digits 10 b) = List.map Nat.digitChar [0] := by
      have h1 : (List.map Nat.digitChar (Nat.digits 10 b)).reverse = ['0'] := hb.symm
      have h2 := congrArg List.reverse h1
      simpa [hmap0] using h2
    have hdig := map_digitChar_inj (Nat.digits 10 b) [0]
      (fun d hd => Nat.digits_lt_base (by norm_num) hd) (by decide) hb2
    have hzero : b = 0 := by
      have hof := Nat.ofDigits_digits 10 b
      rw [hdig] at hof
      simpa [Nat.ofDigits] using hof.symm
    exact hb0 hzero
  rcases Nat.eq_zero_or_pos m with hm | hm
  · subst hm; exact (zeroCase n h).symm
  · rcases Nat.eq_zero_or_pos n with hn | hn
    · subst hn; exact zeroCase m h.symm
    · exact key m n hm hn h

theorem underscore_not_mem_repr (n : Nat) : '_' ∉ (Nat.repr n).data := by
  rcases Nat.eq_zero_or_pos n with hn | hn
  · subst hn; decide
  · rw [repr_data_eq_digits n hn]
    intro hmem
    rw [List.mem_reverse] at hmem
    obtain ⟨d, hd, hdc⟩ := List.mem_map.mp hmem
    have hforall : ∀ d, d < 10 → Nat.digitChar d ≠ '_' := by decide
    exact hforall d (Nat.digits_lt_base (by norm_num) hd) hdc

theorem append_underscore_inj : ∀ (a1 b1 a2 b2 : List Char),
    '_' ∉ a1 → '_' ∉ a2 → a1 ++ '_' :: b1 = a2 ++ '_' :: b2 → a1 = a2 ∧ b1 = b2
  | [], b1, [], b2, _, _, h => by simpa using h
  | [], b1, c :: a2, b2, _, h2, h => by
    simp only [List.nil_append, List.cons_append, List.cons.injEq] at h
    rw [← h.1] at h2
    simp at h2
  | c :: a1, b1, [], b2, h1, _, h => by
    simp only [List.nil_append, List.cons_append, List.cons.injEq] at h
    rw [h.1] at h1
    simp at h1
  | c :: a1, b1, c' :: a2, b2, h1, h2, h => by
    simp only [List.cons_append, List.cons.injEq] at h
    have ih := append_underscore_inj a1 b1 a2 b2
      (fun hm => h1 (List.mem_cons_of_mem _ hm))
      (fun hm => h2 (List.mem_cons_of_mem _ hm)) h.2
    exact ⟨by rw [h.1, ih.1], ih.2⟩

theorem cacheKey_right_inj (p : String) (m1 s1 m2 s2 : Nat)
    (h : cacheKey p m1 s1 = cacheKey p m2 s2) : m1 = m2 ∧ s1 = s2 := by
  have hd : (cacheKey p m1 s1).data = (cacheKey p m2 s2).data := by rw [h]
  simp only [cacheKey, String.data_append] at hd
  have ht : ∀ k : Nat, (toString k : String) = Nat.repr k := fun _ => rfl
  rw [ht m1, ht s1, ht m2, ht s2] at hd
  have hd2 : p.data ++ ('_' :: ((Nat.repr m1).data ++ '_' :: (Nat.repr s1).data)) =
      p.data ++ ('_' :: ((Nat.repr m2).data ++ '_' :: (Nat.repr s2).data)) := by
    simpa [List.append_assoc] using hd
  have h3 := (List.cons.inj (List.append_cancel_left hd2)).2
  have hsplit := append_underscore_inj _ _ _ _
    (underscore_not_mem_repr m1) (underscore_not_mem_repr m2) h3
  exact ⟨natRepr_data_inj hsplit.1, natRepr_data_inj hsplit.2⟩

/-- File-system oracle in which every stat fails with `EACCES`
(an OS I/O error other than not-found). -/
def fsAllEacces : String → Except IOCode Stats := fun _ => .error .eacces

/-- C3 counterexample: the claim that OS I/O errors other than not-found
propagate out of `deepValidate` as exceptions is false — the catch-all
swallows *every* error.  At the concrete input below, `fs.stat` fails with
`EACCES` and `deepValidate` returns `false` instead of rethrowing. -/
theorem C3_counterexample :
    ¬ (∀ (stat : String → Except IOCode Stats) (cache : List (String × String))
         (p : String) (sz : Nat) (digest : String) (e : IOCode),
         stat p = .error e → e ≠ .enoent →
         deepValidate stat cache p sz digest = .error e) := by
  intro hclaim
  have h := hclaim fsAllEacces [] "Client/pak0.pak" 5 "ab01" .eacces rfl (by decide)
  simp [deepValidate, fsAllEacces] at h

/-- C3 (amended): `deepValidate` returns `false` whenever the file is
absent or its on-disk size differs from `expectedSize`, short-circuiting
before any content byte is hashed; when sizes match (and the hash is
computed rather than cached) it returns `true` iff the streamed MD5 equals
`expectedMD5` up to ASCII case; and *every* error — file-not-found and any
other OS I/O error alike — degrades to `false`: `deepValidate` never
rethrows. -/
theorem C3_deepValidate_degrade (stat : String → Except IOCode Stats)
    (cache : List (String × String)) (p : String) (sz : Nat) (digest : String) :
    (∃ out, deepValidate stat cache p sz digest = .ok out)
  ∧ (∀ e, stat p = .error e → deepValidate stat cache p sz digest = .ok ⟨false, cache, 0⟩)
  ∧ (∀ st, stat p = .ok st → st.size ≠ sz →
      deepValidate stat cache p sz digest = .ok ⟨false, cache, 0⟩)
  ∧ (∀ st, stat p = .ok st → st.size = sz →
      cacheFind (cacheKey p st.mtime st.size) cache = none →
      deepValidate stat cache p sz digest =
        .ok ⟨decide (jsToLower st.contentMD5 = jsToLower digest),
             (cacheKey p st.mtime st.size, st.contentMD5) :: cache, st.size⟩) := by
  refine ⟨?_, ?_, ?_, ?_⟩
  · cases hstat : stat p with
    | error e => exact ⟨⟨false, cache, 0⟩, by simp [deepValidate, hstat]⟩
    | ok st =>
      by_cases hsz : st.size = sz
      · subst hsz
        cases hfind : cacheFind (cacheKey p st.mtime st.size) cache with
        | none =>
          exact ⟨⟨decide (jsToLower st.contentMD5 = jsToLower digest),
                  (cacheKey p st.mtime st.size, st.contentMD5) :: cache, st.size⟩,
                 by simp [deepValidate, hstat, hfind]⟩
        | some c =>
          exact ⟨⟨decide (jsToLower c = jsToLower digest), cache, 0⟩,
                 by simp [deepValidate, hstat, hfind]⟩
      · exact ⟨⟨false, cache, 0⟩, by simp [deepValidate, hstat, hsz]⟩
  · intro e hstat
    simp [deepValidate, hstat]
  · intro st hstat hsz
    simp [deepValidate, hstat, hsz]
  · intro st hstat hsz hfind
    subst hsz
    simp [deepValidate, hstat, hfind]

/-- File-system oracle with one well-formed file, used to instantiate the
validator theorems. -/
def fsOneGood : String → Except IOCode Stats :=
  fun p => if p = "Client/pak0.pak" then .ok ⟨5, 1700000000000, "ab01"⟩ else .error .enoent

/-- Concrete instance of (amended) C3: matching size, fresh cache, digest
equal up to case — the verdict is `true`, the whole file is streamed, and
the digest is recorded in the cache. -/
theorem C3_witness :
    deepValidate fsOneGood [] "Client/pak0.pak" 5 "AB01" =
      .ok ⟨true, [(cacheKey "Client/pak0.pak" 1700000000000 5, "ab01")], 5⟩ := by
  have h := (C3_deepValidate_degrade fsOneGood [] "Client/pak0.pak" 5 "AB01").2.2.2
    ⟨5, 1700000000000, "ab01"⟩ rfl rfl rfl
  exact h.trans (by rfl)

/-- C4: the hash cache of `FileValidator.deepValidate`.
(a) a second call on an unchanged file (same stat oracle) returns the same
verdict with zero content bytes read and the cache unchanged;
(b) the on-disk size is re-checked against `expectedSize` before the cache
is consulted, so no cache content can override a size mismatch;
(c) only the cache entry under the key of the current `(path, mtime, size)`
stat can influence the verdict or the bytes read;
(d) keys for the same path but a different mtime or size never collide, so
an entry recorded under a stale mtime or size is never the one consulted. -/
theorem C4_cache_behaviour (stat : String → Except IOCode Stats)
    (cache : List (String × String)) (p : String) (sz : Nat) (digest : String) :
    (∀ out, deepValidate stat cache p sz digest = .ok out →
        deepValidate stat out.cache p sz digest = .ok ⟨out.valid, out.cache, 0⟩)
  ∧ (∀ st, stat p = .ok st → st.size ≠ sz →
        deepValidate stat cache p sz digest = .ok ⟨false, cache, 0⟩)
  ∧ (∀ st cache2, stat p = .ok st →
        cacheFind (cacheKey p st.mtime st.size) cache
          = cacheFind (cacheKey p st.mtime st.size) cache2 →
        ∀ o1 o2, deepValidate stat cache p sz digest = .ok o1 →
          deepValidate stat cache2 p sz digest = .ok o2 →
          o1.valid = o2.valid ∧ o1.contentBytesRead = o2.contentBytesRead)
  ∧ (∀ m1 s1 m2 s2, cacheKey p m1 s1 = cacheKey p m2 s2 → m1 = m2 ∧ s1 = s2) := by
  refine ⟨?_, ?_, ?_, fun m1 s1 m2 s2 h => cacheKey_right_inj p m1 s1 m2 s2 h⟩
  · intro out hout
    cases hstat : stat p with
    | error e =>
      simp [deepValidate, hstat] at hout
      subst hout
      simp [deepValidate, hstat]
    | ok st =>
      by_cases hsz : st.size = sz
      · subst hsz
        cases hfind : cacheFind (cacheKey p st.mtime st.size) cache with
        | some c =>
          simp [deepValidate, hstat, hfind] at hout
          subst hout
          simp [deepValidate, hstat, hfind]
        | none =>
          simp [deepValidate, hstat, hfind] at hout
          subst hout
          simp only [deepValidate, hstat]
          rw [if_neg (by simp)]
          have hhit : cacheFind (cacheKey p st.mtime st.size)
              ((cacheKey p st.mtime st.size, st.contentMD5) :: cache) =
              some st.contentMD5 := by
            simp [cacheFind]
          rw [hhit]
      · simp [deepValidate, hstat, hsz] at hout
        subst hout
        simp [deepValidate, hstat, hsz]
  · intro st hstat hsz
    simp [deepValidate, hstat, hsz]
  · intro st cache2 hstat hfind o1 o2 h1 h2
    by_cases hsz : st.size = sz
    · subst hsz
      cases hc : cacheFind (cacheKey p st.mtime st.size) cache with
      | some c =>
        rw [hc] at hfind
        simp [deepValidate, hstat, hc] at h1
        simp [deepValidate, hstat, ← hfind] at h2
        subst h1
        subst h2
        exact ⟨rfl, rfl⟩
      | none =>
        rw [hc] at hfind
        simp [deepValidate, hstat, hc] at h1
        simp [deepValidate, hstat, ← hfind] at h2
        subst h1
        subst h2
        exact ⟨rfl, rfl⟩
    · simp [deepValidate, hstat, hsz] at h1
      simp [deepValidate, hstat, hsz] at h2
      subst h1
      subst h2
      exact ⟨rfl, rfl⟩

/-- Concrete instance of C4(a): the second validation of the untouched file
answers from the cache — same verdict, zero content bytes read. -/
theorem C4_witness :
    deepValidate fsOneGood [(cacheKey "Client/pak0.pak" 1700000000000 5, "ab01")]
        "Client/pak0.pak" 5 "AB01" =
      .ok ⟨true, [(cacheKey "Client/pak0.pak" 1700000000000 5, "ab01")], 0⟩ := by
  have h := (C4_cache_behaviour fsOneGood [] "Client/pak0.pak" 5 "AB01").1
    ⟨true, [(cacheKey "Client/pak0.pak" 1700000000000 5, "ab01")], 5⟩ (by rfl)
  exact h

/-! ## ProgressTracker (window-manager.js)

State after `reset()`; byte counters and timestamps are `ℚ` because they
flow into divisions (speeds, percentages, ETA).  `lastUpdate = Date.now()`
at reset time is the `now` argument.  The UI throttler and the
`currentFile` basename cosmetics are orthogonal to the tracked counters
and are not part of this model. -/

structure ProgressTracker where
  totalBytes : ℚ := 0
  processedBytes : ℚ := 0
  downloadedBytes : ℚ := 0
  totalFiles : Nat := 0
  processedFiles : Nat := 0
  currentFile : Option String := none
  fileProgress : List (String × ℚ) := []
  fileSizes : List (String × ℚ) := []
  currentSpeed : ℚ := 0
  averageSpeed : ℚ := 0
  speedHistory : List ℚ := []
  lastUpdate : ℚ := 0
  lastBytes : ℚ := 0
  phase : String := "idle"
  subMessage : String := ""
  corruptFiles : List String := []
  repairedFiles : Nat := 0
deriving DecidableEq, Repr

def ProgressTracker.reset (now : ℚ) : ProgressTracker := { lastUpdate := now }

/-- `this.fileProgress.get(fileId) || 0` — association-list model of the JS
`Map`. -/
def mapGetD (k : String) (d : ℚ) : List (String × ℚ) → ℚ
  | [] => d
  | (k', v) :: rest => if k' = k then v else mapGetD k d rest

def mapSet (k : String) (v : ℚ) : List (String × ℚ) → List (String × ℚ)
  | [] => [(k, v)]
  | (k', v') :: rest => if k' = k then (k, v) :: rest else (k', v') :: mapSet k v rest

/-- `ProgressTracker.updateFileProgress(fileId, bytesDownloaded,
isComplete)`: looks up the per-file progress and size, derives the byte
delta (the full remaining size on a completion signal), adds it to
`downloadedBytes`, and clamps `downloadedBytes` to `totalBytes` with
`Math.min`. -/
def ProgressTracker.updateFileProgress (t : ProgressTracker) (fileId : String)
    (bytesDownloaded : ℚ) (isComplete : Bool) : ProgressTracker :=
  let currentFileProgress := mapGetD fileId 0 t.fileProgress
  let fileSize := mapGetD fileId 0 t.fileSizes
  let newFileProgress := if isComplete then fileSize else currentFileProgress + bytesDownloaded
  let progressDiff := newFileProgress - currentFileProgress
  { t with
    fileProgress := mapSet fileId newFileProgress t.fileProgress
    downloadedBytes := min (t.downloadedBytes + progressDiff) t.totalBytes }

/-- The transfer-phase test both speed helpers use: `downloading` or
`repairing`. -/
def isTransferPhase (phase : String) : Bool :=
  phase = "downloading" || phase = "repairing"

/-- `ProgressTracker.updateSpeedMetrics()`; `now` is `Date.now()`.  The
source guard is `timeDiff > 0.1` with `timeDiff = (now - lastUpdate) /
1000` in seconds.  On recomputation: instantaneous speed from the byte
delta of the phase-relevant counter, exponential smoothing with
`SPEED_SMOOTHING_FACTOR`, push to the rolling history (shift when more
than 10 entries), and average = mean of the history. -/
def ProgressTracker.updateSpeedMetrics (t : ProgressTracker) (now : ℚ) : ProgressTracker :=
  let timeDiff := (now - t.lastUpdate) / 1000
  if 1/10 < timeDiff then
    let bytesDiff := if isTransferPhase t.phase then t.downloadedBytes - t.lastBytes
                     else t.processedBytes - t.lastBytes
    let instantSpeed := bytesDiff / timeDiff
    let currentSpeed := t.averageSpeed * SPEED_SMOOTHING_FACTOR +
      instantSpeed * (1 - SPEED_SMOOTHING_FACTOR)
    let pushed := t.speedHistory ++ [currentSpeed]
    let speedHistory := if 10 < pushed.length then pushed.tail else pushed
    let averageSpeed := speedHistory.sum / (speedHistory.length : ℚ)
    { t with
      currentSpeed := currentSpeed
      speedHistory := speedHistory
      averageSpeed := averageSpeed
      lastUpdate := now
      lastBytes := if isTransferPhase t.phase then t.downloadedBytes else t.processedBytes }
  else t

/-- The remainder operation of JS on nonnegative rationals. -/
def ratMod (a b : ℚ) : ℚ := a - b * ⌊a / b⌋

/-- `ProgressTracker.formatETA(seconds)`.  Over `ℚ` the `!isFinite`
disjunct of the first guard cannot trigger. -/
def formatETA (seconds : ℚ) : String :=
  if seconds ≤ 0 then "Calculating..."
  else if seconds < 1 then "<1s"
  else
    let hours : ℤ := ⌊seconds / 3600⌋
    let minutes : ℤ := ⌊ratMod seconds 3600 / 60⌋
    let secs : ℤ := ⌊ratMod seconds 60⌋
    if 0 < hours then toString hours ++ "h " ++ toString minutes ++ "m"
    else if 0 < minutes then toString minutes ++ "m " ++ toString secs ++ "s"
    else toString secs ++ "s"

structure Metrics where
  percentage : ℚ
  speed : ℚ
  eta : ℚ
  etaFormatted : String
  processedBytes : ℚ
  totalBytes : ℚ
  processedFiles : Nat
  totalFiles : Nat
  phase : String
  subMessage : String
  validatedFiles : Nat
  filesToRepair : Nat
  repairedFiles : Nat
deriving DecidableEq, Repr

/-- The byte counter `calculateMetrics` reads for the current phase. -/
def ProgressTracker.currentBytesOfPhase (t : ProgressTracker) : ℚ :=
  if isTransferPhase t.phase then t.downloadedBytes else t.processedBytes

/-- `ProgressTracker.calculateMetrics()`: first mutates the tracker through
`updateSpeedMetrics`, then reports.  Returned together with the mutated
tracker. -/
def ProgressTracker.calculateMetrics (t : ProgressTracker) (now : ℚ) :
    Metrics × ProgressTracker :=
  let u := t.updateSpeedMetrics now
  let currentBytes := u.currentBytesOfPhase
  let percentage := if 0 < u.totalBytes then currentBytes / u.totalBytes * 100 else 0
  let remainingBytes := u.totalBytes - currentBytes
  let eta := if 0 < u.averageSpeed then remainingBytes / u.averageSpeed else 0
  ({ percentage := min 100 percentage
     speed := u.averageSpeed
     eta := eta
     etaFormatted := formatETA eta
     processedBytes := currentBytes
     totalBytes := u.totalBytes
     processedFiles := u.processedFiles
     totalFiles := u.totalFiles
     phase := u.phase
     subMessage := u.subMessage
     validatedFiles := u.processedFiles
     filesToRepair := u.corruptFiles.length
     repairedFiles := u.repairedFiles }, u)

/-- The guard `timeDiff > 0.1` holds exactly when strictly more than 100ms
have elapsed. -/
theorem speed_guard_iff (t : ProgressTracker) (now : ℚ) :
    (1/10 : ℚ) < (now - t.lastUpdate) / 1000 ↔ 100 < now - t.lastUpdate := by
  rw [lt_div_iff₀ (by norm_num : (0:ℚ) < 1000)]
  constructor <;> intro h <;> linarith

/-- C9: speed computation of the ProgressTracker.
(1) Speed is recomputed only when at least 100ms have elapsed since the
last sample: under 100ms the tracker is untouched.
(2) On recomputation, the new current speed is
0.7 times the previous average plus 0.3 times the instantaneous speed.
(3) The rolling history keeps the last at most 10 smoothed samples and the
average speed is their arithmetic mean.
(4) The reported ETA is remaining bytes over average speed, or the
incalculable sentinel (eta 0, formatted as the calculating text) when the
average speed is zero. -/
theorem C9_speed_metrics (t : ProgressTracker) (now : ℚ) :
    (now - t.lastUpdate < 100 → t.updateSpeedMetrics now = t)
  ∧ (100 < now - t.lastUpdate →
      (t.updateSpeedMetrics now).currentSpeed =
        (7/10) * t.averageSpeed +
          (3/10) * ((if isTransferPhase t.phase then t.downloadedBytes - t.lastBytes
                     else t.processedBytes - t.lastBytes) / ((now - t.lastUpdate) / 1000)))
  ∧ (100 < now - t.lastUpdate → t.speedHistory.length ≤ 10 →
      (t.updateSpeedMetrics now).speedHistory =
        ((t.speedHistory ++ [(t.updateSpeedMetrics now).currentSpeed]).drop
          ((t.speedHistory ++ [(t.updateSpeedMetrics now).currentSpeed]).length - 10))
      ∧ (t.updateSpeedMetrics now).averageSpeed =
          (t.updateSpeedMetrics now).speedHistory.sum /
            ((t.updateSpeedMetrics now).speedHistory.length : ℚ))
  ∧ (∀ m u, t.calculateMetrics now = (m, u) →
      (u.averageSpeed = 0 → m.eta = 0 ∧ m.etaFormatted = "Calculating...")
      ∧ (0 < u.averageSpeed →
          m.eta = (u.totalBytes - u.currentBytesOfPhase) / u.averageSpeed)) := by
  refine ⟨?_, ?_, ?_, ?_⟩
  · intro h
    have hg : ¬ ((1/10 : ℚ) < (now - t.lastUpdate) / 1000) := by
      rw [speed_guard_iff]
      linarith
    simp only [ProgressTracker.updateSpeedMetrics, if_neg hg]
  · intro h
    have hg : (1/10 : ℚ) < (now - t.lastUpdate) / 1000 := (speed_guard_iff t now).mpr h
    simp only [ProgressTracker.updateSpeedMetrics, if_pos hg, SPEED_SMOOTHING_FACTOR]
    ring
  · intro h hlen
    have hg : (1/10 : ℚ) < (now - t.lastUpdate) / 1000 := (speed_guard_iff t now).mpr h
    simp only [ProgressTracker.updateSpeedMetrics, if_pos hg]
    constructor
    · by_cases hl : 10 < (t.speedHistory ++
          [t.averageSpeed * SPEED_SMOOTHING_FACTOR +
            (if isTransferPhase t.phase then t.downloadedBytes - t.lastBytes
             else t.processedBytes - t.lastBytes) / ((now - t.lastUpdate) / 1000) *
            (1 - SPEED_SMOOTHING_FACTOR)]).length
      · rw [if_pos hl]
        have hlen10 : t.speedHistory.length = 10 := by
          simp only [List.length_append, List.length_cons, List.length_nil] at hl
          omega
        have hdrop : ∀ x : ℚ, (t.speedHistory ++ [x]).length - 10 = 1 := by
          intro x
          simp [hlen10]
        rw [hdrop, ← List.drop_one]
      · rw [if_neg hl]
        have hlen9 : t.speedHistory.length ≤ 9 := by
          simp only [List.length_append, List.length_cons, List.length_nil] at hl
          omega
        have hdrop : ∀ x : ℚ, (t.speedHistory ++ [x]).length - 10 = 0 := by
          intro x
          simp only [List.length_append, List.length_cons, List.length_nil]
          omega
        rw [hdrop, List.drop_zero]
    · trivial
  · intro m u heq
    simp only [ProgressTracker.calculateMetrics] at heq
    injection heq with hm hu
    subst hm
    subst hu
    constructor
    · intro havg
      rw [havg]
      constructor
      · simp
      · simp only [lt_irrefl, if_false]
        simp [formatETA]
    · intro havg
      simp [if_pos havg]

/-- A tracker mid-download, used to instantiate the tracker theorems. -/
def trackerMid : ProgressTracker :=
  { ProgressTracker.reset 0 with
    phase := "downloading"
    totalBytes := 1000
    downloadedBytes := 500
    averageSpeed := 100
    speedHistory := [100] }

/-- Concrete instance of C9: 200ms after the last sample with 500 bytes
transferred, the smoothed speed is 0.7*100 + 0.3*2500 = 820, and the ETA
is 500 divided by the mean of [100, 820], i.e. 25/23 seconds. -/
theorem C9_witness :
    (trackerMid.updateSpeedMetrics 200).currentSpeed = 820
  ∧ (trackerMid.calculateMetrics 200).1.eta = 25/23 := by
  have h2 := (C9_speed_metrics trackerMid 200).2.1
    (by norm_num [trackerMid, ProgressTracker.reset])
  have h4 := ((C9_speed_metrics trackerMid 200).2.2.2
    (trackerMid.calculateMetrics 200).1 (trackerMid.calculateMetrics 200).2 rfl).2
    (by norm_num [ProgressTracker.calculateMetrics, ProgressTracker.updateSpeedMetrics,
      trackerMid, ProgressTracker.reset, isTransferPhase, SPEED_SMOOTHING_FACTOR])
  constructor
  · rw [h2]
    norm_num [trackerMid, ProgressTracker.reset, isTransferPhase]
  · rw [h4]
    norm_num [ProgressTracker.calculateMetrics, ProgressTracker.updateSpeedMetrics,
      ProgressTracker.currentBytesOfPhase, trackerMid, ProgressTracker.reset,
      isTransferPhase, SPEED_SMOOTHING_FACTOR]

/-- Fold a sequence of `updateFileProgress` calls. -/
def applyFileUpdates (t : ProgressTracker) : List (String × ℚ × Bool) → ProgressTracker
  | [] => t
  | (fid, bytes, complete) :: rest =>
    applyFileUpdates (t.updateFileProgress fid bytes complete) rest

theorem updateFileProgress_le (t : ProgressTracker) (fid : String)
    (bytes : ℚ) (complete : Bool) :
    (t.updateFileProgress fid bytes complete).downloadedBytes ≤
      (t.updateFileProgress fid bytes complete).totalBytes :=
  min_le_right _ _

theorem applyFileUpdates_le (updates : List (String × ℚ × Bool)) :
    ∀ t : ProgressTracker, t.downloadedBytes ≤ t.totalBytes →
    (applyFileUpdates t updates).downloadedBytes ≤
      (applyFileUpdates t updates).totalBytes := by
  induction updates with
  | nil => intro t h; exact h
  | cons u rest ih =>
    intro t _
    obtain ⟨fid, bytes, complete⟩ := u
    exact ih _ (updateFileProgress_le t fid bytes complete)

/-- Tracker with a 1000-byte total, used with `updatesWild`. -/
def trackerTen : ProgressTracker :=
  { ProgressTracker.reset 0 with
    phase := "downloading"
    totalBytes := 1000
    fileSizes := [("a.pak", 300), ("b.pak", 700)] }

/-- A hostile `updateFileProgress` call sequence: oversized increment,
duplicate completion, unknown file. -/
def updatesWild : List (String × ℚ × Bool) :=
  [("a.pak", 900, false), ("a.pak", 0, true), ("a.pak", 0, true), ("zz.pak", 50, false)]

/-- C10: invariant of the tracker under arbitrary `updateFileProgress`
traffic (duplicate and oversized increments and completion signals
included): at every point of the call sequence `downloadedBytes` never
exceeds `totalBytes`, and the percentage `calculateMetrics` reports never
exceeds 100. -/
theorem C10_progress_clamped (t0 : ProgressTracker) (updates : List (String × ℚ × Bool))
    (h0 : t0.downloadedBytes ≤ t0.totalBytes) :
    (∀ k, (applyFileUpdates t0 (updates.take k)).downloadedBytes ≤
          (applyFileUpdates t0 (updates.take k)).totalBytes)
  ∧ (∀ k now,
      ((applyFileUpdates t0 (updates.take k)).calculateMetrics now).1.percentage ≤ 100) := by
  constructor
  · intro k
    exact applyFileUpdates_le (updates.take k) t0 h0
  · intro k now
    exact min_le_left _ _

/-- Concrete instance of C10: an oversized increment (900 of a 300-byte
file), duplicate completions and a stray increment on an unknown file
leave `downloadedBytes` clamped at `totalBytes = 1000` and the percentage
at 100. -/
theorem C10_witness :
    (applyFileUpdates trackerTen (updatesWild.take 4)).downloadedBytes ≤
      (applyFileUpdates trackerTen (updatesWild.take 4)).totalBytes
  ∧ ((applyFileUpdates trackerTen (updatesWild.take 4)).calculateMetrics 0).1.percentage ≤ 100 :=
  ⟨(C10_progress_clamped trackerTen updatesWild (by norm_num [trackerTen, ProgressTracker.reset])).1 4,
   (C10_progress_clamped trackerTen updatesWild (by norm_num [trackerTen, ProgressTracker.reset])).2 4 0⟩

/-! ## Sync orchestration (GameDownloadManager / GameRepairManager)

The manifest entries, the per-operation engine state and the observable
phases of one run.  Network and disk behaviour is abstracted into oracles:
what the validation pipeline answers for each file in each pass, and
whether the per-file download (after its `withRetry` rounds) succeeds.
The fixed-width worker pools (`MAX_CONCURRENT_DOWNLOADS` workers pulling
from one shared FIFO queue) are collapsed to the sequential order in which
queue items are taken; the claims below do not depend on the
interleaving. -/

/-- One entry of the remote resource manifest. -/
structure Resource where
  dest : String
  size : Nat
  md5 : String
deriving DecidableEq, Repr

/-- `CoreUtils.createStandardResponse(success, data, error)` restricted to
the fields the download flow produces. -/
structure StdResponse where
  success : Bool
  cancelled : Bool
  error : Option String
deriving DecidableEq, Repr

structure AbortController where
  aborted : Bool
deriving DecidableEq, Repr

/-- `this.state` of GameDownloadManager. -/
structure DMState where
  isDownloading : Bool
  isPaused : Bool
  abortController : Option AbortController
deriving DecidableEq, Repr

structure GameDownloadManager where
  state : DMState
  progressTracker : ProgressTracker
  completedFiles : List String
  currentPatchVersion : Option String
deriving DecidableEq

/-- `GameDownloadManager.reset()` (also the `finally` block of
`downloadGame`); the tracker reset stamps `Date.now() = now`. -/
def GameDownloadManager.reset (_m : GameDownloadManager) (now : ℚ) : GameDownloadManager :=
  { state := ⟨false, false, none⟩
    progressTracker := ProgressTracker.reset now
    completedFiles := []
    currentPatchVersion := none }

/-- Observable events of one sync/repair run. -/
inductive Ev where
  | validationPass (isFinal : Bool) (dests : List String)
  | fileDownloaded (dest : String)
  | fileDownloadFailed (dest : String)
  | opCompleted
  | opFailed
deriving DecidableEq, Repr

def isValidationPass : Ev → Bool
  | .validationPass _ _ => true
  | _ => false

/-- Oracles for one `downloadGame` run: the resolved manifest, the
per-file verdict of the validation pipeline in the starting
(`isFinal = false`) and final (`isFinal = true`) pass, and whether
`downloadFileWithRetry` ultimately succeeds for a file. -/
structure SyncEnv where
  resources : List Resource
  version : String
  validAt : Bool → Resource → Bool
  downloadOk : Resource → Bool

/-- The download phase (`executeDownload`/`worker`): items are taken from
the FIFO queue; a file whose retries are exhausted aborts the whole batch.
Returns (batch succeeded, events, dests marked completed). -/
def executeDownloadGo (ok : Resource → Bool) : List Resource → Bool × List Ev × List String
  | [] => (true, [], [])
  | r :: rest =>
    if ok r then
      let next := executeDownloadGo ok rest
      (next.1, .fileDownloaded r.dest :: next.2.1, r.dest :: next.2.2)
    else (false, [.fileDownloadFailed r.dest], [])

/-- `GameDownloadManager.downloadGame(installPath, …)`:

* single-flight guard: busy means an immediate error response with nothing
  touched;
* otherwise: start state (`this.reset()`, `isDownloading = true`, fresh
  AbortController), resolve config, validate, download the invalid set,
  re-validate everything, complete — with `this.reset()` in the `finally`
  block.

Returns (response, manager afterwards, trace of events). -/
def downloadGame (m : GameDownloadManager) (env : SyncEnv) (now : ℚ) :
    StdResponse × GameDownloadManager × List Ev :=
  if m.state.isDownloading then
    (⟨false, false, some "A download is already in progress."⟩, m, [])
  else
    let invalid := env.resources.filter (fun r => !(env.validAt false r))
    let ev1 := Ev.validationPass false (env.resources.map Resource.dest)
    if invalid.length = 0 then
      (⟨true, false, none⟩, m.reset now, [ev1, .opCompleted])
    else
      match executeDownloadGo env.downloadOk invalid with
      | (true, devs, _done) =>
        let finalInvalid := env.resources.filter (fun r => !(env.validAt true r))
        let ev2 := Ev.validationPass true (env.resources.map Resource.dest)
        if finalInvalid.length = 0 then
          (⟨true, false, none⟩, m.reset now, ev1 :: devs ++ [ev2, .opCompleted])
        else
          (⟨false, false,
             some ("Validation failed: " ++ toString finalInvalid.length ++
               " files are still corrupt after download.")⟩,
           m.reset now, ev1 :: devs ++ [ev2, .opFailed])
      | (false, devs, _done) =>
        (⟨false, false, some "File download failed after all retries."⟩,
         m.reset now, ev1 :: devs ++ [.opFailed])

/-! ## GameRepairManager (window-manager.js) -/

structure GameRepairManager where
  isRepairing : Bool
  progressTracker : ProgressTracker
  abortController : Option AbortController
deriving DecidableEq

/-- What probing one local-index path observes:
`none` — the file does not exist (`CoreUtils.fileExists` false);
`some none` — `CoreUtils.readJsonFile` returned its `null` default
(unreadable or unparsable), or the JSON has no resource array;
`some (some rs)` — a parsed resource array. -/
abbrev LocalProbe := Option (Option (List Resource))

/-- Oracles for one `repairGame` run. -/
structure RepairEnv where
  localIndex : String → LocalProbe
  remoteResources : List Resource
  remoteBaseUrl : String
  validR : Resource → Bool
  repairOk : Resource → Bool

/-- The two candidate paths of `getLocalResources`
(`path.join(gamePath, …)`). -/
def localIndexPaths (gamePath : String) : List String :=
  [gamePath ++ "/OriginResource.json", gamePath ++ "/LocalGameResources.json"]

def getLocalResourcesGo (probe : String → LocalProbe) :
    List String → Except String (List Resource)
  | [] => .error
      "Quick Check failed: No valid local index found with sufficient files. Please run a Full Check."
  | p :: rest =>
    match probe p with
    | none => getLocalResourcesGo probe rest
    | some none => getLocalResourcesGo probe rest
    | some (some rs) =>
      if 0 < rs.length then
        if 100 ≤ rs.length then .ok rs
        else getLocalResourcesGo probe rest
      else getLocalResourcesGo probe rest

/-- `GameRepairManager.getLocalResources(gamePath)`: walks the candidate
local index files, accepting the first one that exists, parses, and lists
at least 100 entries; otherwise throws (which `repairGame` catches to fall
back to the remote index). -/
def getLocalResources (probe : String → LocalProbe) (gamePath : String) :
    Except String (List Resource) :=
  getLocalResourcesGo probe (localIndexPaths gamePath)

/-- Terminal outcome `repairGame` reports through its repair-progress
emissions. -/
inductive RepairOutcome where
  | busy
  | completed (repairedCount totalValidated : Nat)
  | errored (msg : String)
deriving DecidableEq, Repr

/-- The repair download phase (`repairCorruptFiles`/`repairWorker`),
sequentialized like `executeDownloadGo`. -/
def repairFilesGo (ok : Resource → Bool) : List Resource → Bool × List Ev
  | [] => (true, [])
  | r :: rest =>
    if ok r then
      let next := repairFilesGo ok rest
      (next.1, .fileDownloaded r.dest :: next.2)
    else (false, [.fileDownloadFailed r.dest])

/-- Resource sourcing of `repairGame`: quick mode tries the local index
and falls back to the remote one; a (remote) list of fewer than 100
entries makes quick mode fetch the remote index (again) as backup; full
mode always uses the remote index. -/
def repairSourcing (env : RepairEnv) (gamePath mode : String) : List Resource :=
  let first :=
    if mode = "quick" then
      match getLocalResources env.localIndex gamePath with
      | .ok rs => rs
      | .error _ => env.remoteResources
    else env.remoteResources
  if first.length < 100 ∧ mode = "quick" then env.remoteResources else first

/-- `GameRepairManager.repairGame(gamePath, mode)`:
busy guard, resource sourcing, one validation pass, repair of the corrupt
set, completion — with `cleanup()` in the `finally` block.  Cancellation
is not exercised by the claims and is omitted.  Returns
(outcome, manager afterwards, trace). -/
def repairGame (r : GameRepairManager) (env : RepairEnv) (gamePath mode : String) (now : ℚ) :
    RepairOutcome × GameRepairManager × List Ev :=
  if r.isRepairing then
    (.busy, r, [])
  else
    let resources := repairSourcing env gamePath mode
    let ev1 := Ev.validationPass false (resources.map Resource.dest)
    let corrupt := resources.filter (fun x => !(env.validR x))
    let cleaned : GameRepairManager := ⟨false, ProgressTracker.reset now, none⟩
    if corrupt.length = 0 then
      (.completed 0 resources.length, cleaned, [ev1, .opCompleted])
    else
      match repairFilesGo env.repairOk corrupt with
      | (true, devs) =>
        (.completed corrupt.length resources.length, cleaned, ev1 :: devs ++ [.opCompleted])
      | (false, devs) =>
        (.errored "Download aborted", cleaned, ev1 :: devs ++ [.opFailed])

/-- C1: single-flight guard.  A `downloadGame` call while
`state.isDownloading` is set, and a `repairGame` call while `isRepairing`
is set, are rejected immediately with the busy error, produce no events
(nothing is queued), and return the manager exactly as it was — the
tracker, the `isDownloading`/`isPaused`/`abortController` state and the
completed-file set of the active operation are untouched. -/
theorem C1_busy_rejection (m : GameDownloadManager) (env : SyncEnv) (now : ℚ)
    (r : GameRepairManager) (renv : RepairEnv) (gamePath mode : String) (now2 : ℚ)
    (hm : m.state.isDownloading = true) (hr : r.isRepairing = true) :
    downloadGame m env now =
      (⟨false, false, some "A download is already in progress."⟩, m, [])
  ∧ repairGame r renv gamePath mode now2 = (.busy, r, []) := by
  constructor
  · simp [downloadGame, hm]
  · simp [repairGame, hr]

/-- A manager with an operation in flight, mid-way state. -/
def busyManager : GameDownloadManager :=
  ⟨⟨true, false, some ⟨false⟩⟩,
   { ProgressTracker.reset 0 with totalBytes := 1000, downloadedBytes := 400 },
   ["a.pak"], some "2.1.0"⟩

def busyRepairer : GameRepairManager :=
  ⟨true, { ProgressTracker.reset 0 with totalBytes := 7 }, some ⟨false⟩⟩

def envTwoFiles : SyncEnv :=
  { resources := [⟨"a.pak", 3, "aa"⟩, ⟨"b.pak", 4, "bb"⟩]
    version := "2.1.0"
    validAt := fun _ _ => true
    downloadOk := fun _ => true }

def renvNoLocal : RepairEnv :=
  { localIndex := fun _ => none
    remoteResources := [⟨"a.pak", 3, "aa"⟩, ⟨"b.pak", 4, "bb"⟩]
    remoteBaseUrl := "https://cdn/zip"
    validR := fun _ => true
    repairOk := fun _ => true }

/-- Concrete instance of C1: both engines busy, both calls bounce with the
mid-operation state intact. -/
theorem C1_witness :
    downloadGame busyManager envTwoFiles 99 =
      (⟨false, false, some "A download is already in progress."⟩, busyManager, [])
  ∧ repairGame busyRepairer renvNoLocal "game" "quick" 99 = (.busy, busyRepairer, []) :=
  C1_busy_rejection busyManager envTwoFiles 99 busyRepairer renvNoLocal "game" "quick" 99
    rfl rfl

/-- C7: idempotence of `downloadGame`.  When the first validation pass
finds nothing invalid, the run downloads zero files (no download event in
the trace), skips the download phase, and completes successfully. -/
theorem C7_sync_idempotent (m : GameDownloadManager) (env : SyncEnv) (now : ℚ)
    (hm : m.state.isDownloading = false)
    (hvalid : ∀ x ∈ env.resources, env.validAt false x = true) :
    downloadGame m env now =
      (⟨true, false, none⟩, m.reset now,
       [Ev.validationPass false (env.resources.map Resource.dest), Ev.opCompleted]) := by
  have hfilter : env.resources.filter (fun r => !(env.validAt false r)) = [] :=
    List.filter_eq_nil_iff.mpr (fun a ha => by simp [hvalid a ha])
  simp [downloadGame, hm, hfilter]

def freshManager : GameDownloadManager :=
  ⟨⟨false, false, none⟩, ProgressTracker.reset 0, [], none⟩

/-- Concrete instance of C7: all files already valid — zero downloads,
success. -/
theorem C7_witness :
    downloadGame freshManager envTwoFiles 3 =
      (⟨true, false, none⟩, freshManager.reset 3,
       [Ev.validationPass false ["a.pak", "b.pak"], Ev.opCompleted]) := by
  have h := C7_sync_idempotent freshManager envTwoFiles 3 rfl (fun x _ => rfl)
  exact h.trans (by rfl)

theorem executeDownloadGo_allOk (ok : Resource → Bool) :
    ∀ l, (∀ x ∈ l, ok x = true) →
    executeDownloadGo ok l =
      (true, l.map (fun x => Ev.fileDownloaded x.dest), l.map Resource.dest) := by
  intro l
  induction l with
  | nil => intro _; rfl
  | cons r rest ih =>
    intro h
    have hr := h r (List.mem_cons_self r rest)
    have hrest := ih (fun x hx => h x (List.mem_cons_of_mem _ hx))
    simp [executeDownloadGo, hr, hrest]

def repairerIdle : GameRepairManager := ⟨false, ProgressTracker.reset 0, none⟩

def renvOneCorrupt : RepairEnv :=
  { localIndex := fun _ => none
    remoteResources := [⟨"a.pak", 3, "aa"⟩, ⟨"b.pak", 4, "bb"⟩]
    remoteBaseUrl := "https://cdn/zip"
    validR := fun x => x.dest != "a.pak"
    repairOk := fun _ => true }

/-- C6 counterexample: the claim is false for the repair flow.  A full
repair of a set with one corrupt file downloads it and declares success —
and its trace contains exactly one validation pass: no second, full deep
validation pass runs over the resource set before success is declared. -/
theorem C6_counterexample :
    ¬ (∀ (r : GameRepairManager) (env : RepairEnv) (gamePath mode : String) (now : ℚ),
        (∃ d, Ev.fileDownloaded d ∈ (repairGame r env gamePath mode now).2.2) →
        Ev.opCompleted ∈ (repairGame r env gamePath mode now).2.2 →
        2 ≤ ((repairGame r env gamePath mode now).2.2.countP isValidationPass)) := by
  intro hclaim
  have h := hclaim repairerIdle renvOneCorrupt "game" "full" 0
    ⟨"a.pak", by decide⟩ (by decide)
  revert h
  decide

/-- C6 (amended): the claim holds for the sync flow (`downloadGame`): once
the download phase has accounted for every queued file, a second full deep
validation pass runs over the *complete* resource set, it is the last
thing before the terminal event (no further download or retry round), and
any file still invalid there fails the operation hard.  The repair flow
(`repairGame`) declares success after its per-file post-download checks
without a second full validation pass (see the counterexample). -/
theorem C6_sync_final_validation (m : GameDownloadManager) (env : SyncEnv) (now : ℚ)
    (hm : m.state.isDownloading = false)
    (hsome : env.resources.filter (fun r => !(env.validAt false r)) ≠ [])
    (hok : ∀ x ∈ env.resources.filter (fun r => !(env.validAt false r)),
        env.downloadOk x = true) :
    (downloadGame m env now).2.2 =
      Ev.validationPass false (env.resources.map Resource.dest) ::
      (env.resources.filter (fun r => !(env.validAt false r))).map
        (fun x => Ev.fileDownloaded x.dest) ++
      [Ev.validationPass true (env.resources.map Resource.dest),
       if (env.resources.filter (fun r => !(env.validAt true r))).length = 0
         then Ev.opCompleted else Ev.opFailed]
  ∧ ((env.resources.filter (fun r => !(env.validAt true r))).length ≠ 0 →
      (downloadGame m env now).1.success = false ∧
      (downloadGame m env now).1.error =
        some ("Validation failed: " ++
          toString (env.resources.filter (fun r => !(env.validAt true r))).length ++
          " files are still corrupt after download.")) := by
  have hlen : ¬ ((env.resources.filter (fun r => !(env.validAt false r))).length = 0) := by
    simpa [List.length_eq_zero] using hsome
  have hexec := executeDownloadGo_allOk env.downloadOk _ hok
  constructor
  · by_cases hfin : (env.resources.filter (fun r => !(env.validAt true r))).length = 0 <;>
      simp [downloadGame, hm, hlen, hexec, hfin]
  · intro hc
    simp [downloadGame, hm, hlen, hexec, hc]

/-- One file that stays corrupt even after a successful (re-)download. -/
def envStubborn : SyncEnv :=
  { resources := [⟨"a.pak", 3, "aa"⟩]
    version := "2.1.0"
    validAt := fun _ _ => false
    downloadOk := fun _ => true }

/-- Concrete instance of (amended) C6: after downloading the one invalid
file, the final full pass still finds it corrupt; the run fails hard right
after that pass. -/
theorem C6_witness :
    (downloadGame freshManager envStubborn 0).2.2 =
      [Ev.validationPass false ["a.pak"], Ev.fileDownloaded "a.pak",
       Ev.validationPass true ["a.pak"], Ev.opFailed]
  ∧ (downloadGame freshManager envStubborn 0).1.success = false := by
  have h := C6_sync_final_validation freshManager envStubborn 0 rfl
    (by decide) (fun x _ => rfl)
  exact ⟨h.1.trans (by decide), (h.2 (by decide)).1⟩

theorem getLocalResourcesGo_ok (probe : String → LocalProbe) :
    ∀ paths rs, getLocalResourcesGo probe paths = .ok rs →
    100 ≤ rs.length ∧ ∃ p ∈ paths, probe p = some (some rs) := by
  intro paths
  induction paths with
  | nil => intro rs h; simp [getLocalResourcesGo] at h
  | cons p rest ih =>
    intro rs h
    simp only [getLocalResourcesGo] at h
    cases hp : probe p with
    | none =>
      rw [hp] at h
      obtain ⟨h1, q, hq, hpq⟩ := ih rs h
      exact ⟨h1, q, List.mem_cons_of_mem _ hq, hpq⟩
    | some o =>
      cases o with
      | none =>
        rw [hp] at h
        obtain ⟨h1, q, hq, hpq⟩ := ih rs h
        exact ⟨h1, q, List.mem_cons_of_mem _ hq, hpq⟩
      | some rs2 =>
        rw [hp] at h
        have h' : (if 0 < rs2.length then
            (if 100 ≤ rs2.length then Except.ok rs2 else getLocalResourcesGo probe rest)
            else getLocalResourcesGo probe rest) = Except.ok rs := h
        by_cases h0 : 0 < rs2.length
        · rw [if_pos h0] at h'
          by_cases h100 : 100 ≤ rs2.length
          · rw [if_pos h100] at h'
            injection h' with h2
            subst h2
            exact ⟨h100, p, List.mem_cons_self _ _, hp⟩
          · rw [if_neg h100] at h'
            obtain ⟨h1, q, hq, hpq⟩ := ih rs h'
            exact ⟨h1, q, List.mem_cons_of_mem _ hq, hpq⟩
        · rw [if_neg h0] at h'
          obtain ⟨h1, q, hq, hpq⟩ := ih rs h'
          exact ⟨h1, q, List.mem_cons_of_mem _ hq, hpq⟩

/-- Any non-busy `repairGame` run: the cleaned-up manager, a trace opening
with the validation pass over the sourced resources, and a non-busy
outcome. -/
theorem repairGame_shape (r : GameRepairManager) (env : RepairEnv)
    (gamePath mode : String) (now : ℚ) (hr : r.isRepairing = false) :
    ∃ tail outcome,
      repairGame r env gamePath mode now =
        (outcome, ⟨false, ProgressTracker.reset now, none⟩,
         Ev.validationPass false ((repairSourcing env gamePath mode).map Resource.dest)
           :: tail)
      ∧ outcome ≠ .busy := by
  by_cases hc : ((repairSourcing env gamePath mode).filter
      (fun x => !(env.validR x))).length = 0
  · refine ⟨[.opCompleted], .completed 0 (repairSourcing env gamePath mode).length,
      by simp [repairGame, hr, hc], by simp⟩
  · rcases hgo : repairFilesGo env.repairOk
      ((repairSourcing env gamePath mode).filter (fun x => !(env.validR x))) with ⟨b, devs⟩
    cases b with
    | true =>
      refine ⟨devs ++ [.opCompleted],
        .completed ((repairSourcing env gamePath mode).filter
          (fun x => !(env.validR x))).length (repairSourcing env gamePath mode).length,
        by simp [repairGame, hr, hc, hgo], by simp⟩
    | false =>
      refine ⟨devs ++ [.opFailed], .errored "Download aborted",
        by simp [repairGame, hr, hc, hgo], by simp⟩

/-- C8: quick-repair manifest sourcing.
(i) `getLocalResources` hands back a local index only if one of the two
candidate files exists, parses to a resource array, and lists at least 100
entries.
(ii) If it instead throws (absent, unreadable, or too small at every
candidate path), a quick repair proceeds on the remote manifest: the
resources actually used are the remote ones, the run performs its
validation pass over them, and the call is not rejected. -/
theorem C8_quick_repair_fallback :
    (∀ (probe : String → LocalProbe) (gamePath : String) (rs : List Resource),
        getLocalResources probe gamePath = .ok rs →
        100 ≤ rs.length ∧ ∃ p ∈ localIndexPaths gamePath, probe p = some (some rs))
  ∧ (∀ (r : GameRepairManager) (env : RepairEnv) (gamePath : String) (now : ℚ),
        r.isRepairing = false →
        ∀ msg, getLocalResources env.localIndex gamePath = .error msg →
        repairSourcing env gamePath "quick" = env.remoteResources
        ∧ (repairGame r env gamePath "quick" now).2.2.head? =
            some (Ev.validationPass false (env.remoteResources.map Resource.dest))
        ∧ (repairGame r env gamePath "quick" now).1 ≠ .busy) := by
  constructor
  · intro probe gamePath rs h
    exact getLocalResourcesGo_ok probe (localIndexPaths gamePath) rs h
  · intro r env gamePath now hr msg hmsg
    have hs : repairSourcing env gamePath "quick" = env.remoteResources := by
      simp only [repairSourcing, hmsg]
      by_cases hlen : env.remoteResources.length < 100 <;> simp [hlen]
    obtain ⟨tail, outcome, heq, hbusy⟩ := repairGame_shape r env gamePath "quick" now hr
    refine ⟨hs, ?_, ?_⟩
    · rw [heq, hs]
      rfl
    · rw [heq]
      exact hbusy

/-- Concrete instance of C8(ii): no local index file exists at all — quick
repair runs on the remote manifest and is not rejected. -/
theorem C8_witness :
    repairSourcing renvNoLocal "game" "quick" = renvNoLocal.remoteResources
  ∧ (repairGame repairerIdle renvNoLocal "game" "quick" 0).2.2.head? =
      some (Ev.validationPass false ["a.pak", "b.pak"])
  ∧ (repairGame repairerIdle renvNoLocal "game" "quick" 0).1 ≠ .busy := by
  have h := (C8_quick_repair_fallback).2 repairerIdle renvNoLocal "game" 0 rfl
    "Quick Check failed: No valid local index found with sufficient files. Please run a Full Check."
    rfl
  exact ⟨h.1, h.2.1.trans (by rfl), h.2.2⟩

/-! ## Stream teardown and terminal status (setupDownloadStream /
handleDownloadError) -/

inductive PipelineOutcome where
  | success
  | errored
deriving DecidableEq, Repr

/-- Completion callback of the stream pipeline in
`GameDownloadManager.setupDownloadStream` (and identically in
`GameRepairManager.downloadFile`): on any stream error — including the
forced `stream.destroy()` that `cancelDownload` applies to every in-flight
response stream — the half-written destination file is removed with
`fs.unlink` before the per-file promise rejects; on success the file
stays.  The disk is modelled as the list of paths present; returns
(disk afterwards, promise resolved?). -/
def finishDownloadStream (outcome : PipelineOutcome) (disk : List String)
    (filePath : String) : List String × Bool :=
  match outcome with
  | .errored => (disk.filter (fun q => q ≠ filePath), false)
  | .success => (disk, true)

/-- `GameDownloadManager.handleDownloadError(error)`: the terminal status
is `Cancelled` when `this.state.abortController?.signal.aborted`,
otherwise `Error`; the response always has `success = false` and carries
the cancellation flag. -/
def handleDownloadError (st : DMState) (errMsg : String) : String × StdResponse :=
  let isCancelled := match st.abortController with
    | some ac => ac.aborted
    | none => false
  (if isCancelled then STATUS_DOWNLOAD_CANCELLED else STATUS_DOWNLOAD_ERROR,
   ⟨false, isCancelled, some errMsg⟩)

/-- C5: teardown of failed or cancelled transfers.  Whenever the stream of
an in-flight file errors — which a mid-transfer cancellation forces by
destroying the stream — the half-written destination file is removed from
disk; and an operation whose abort controller fired terminates with status
`Cancelled`, not `Error`. -/
theorem C5_cancel_cleanup (disk : List String) (filePath : String)
    (st : DMState) (msg : String) (ac : AbortController)
    (hab : st.abortController = some ac) (habt : ac.aborted = true) :
    filePath ∉ (finishDownloadStream .errored disk filePath).1
  ∧ handleDownloadError st msg =
      (STATUS_DOWNLOAD_CANCELLED, ⟨false, true, some msg⟩)
  ∧ STATUS_DOWNLOAD_CANCELLED ≠ STATUS_DOWNLOAD_ERROR := by
  refine ⟨?_, ?_, by decide⟩
  · intro hmem
    have h := List.of_mem_filter hmem
    simp at h
  · simp [handleDownloadError, hab, habt]

/-- Concrete instance of C5: the file in flight at cancellation time is
gone from disk and the run reports the cancelled status. -/
theorem C5_witness :
    "a.pak" ∉ (finishDownloadStream .errored ["a.pak", "b.pak"] "a.pak").1
  ∧ handleDownloadError ⟨true, false, some ⟨true⟩⟩ "Download was cancelled by the user." =
      ("Cancelled", ⟨false, true, some "Download was cancelled by the user."⟩) := by
  have h := C5_cancel_cleanup ["a.pak", "b.pak"] "a.pak" ⟨true, false, some ⟨true⟩⟩
    "Download was cancelled by the user." ⟨true⟩ rfl rfl
  exact ⟨h.1, h.2.1.trans (by rfl)⟩

end Peebify
